import Mathlib

/-!
# A verification development for the `env` package

This file gives a shallow embedding, in Lean 4, of the core of the `env`
Go package (loading environment variables into a config struct), and proves
properties of the embedded definitions.

The repository contains several historical snapshots of the implementation.
The embedding below covers:

* the current `Load`/`parseVars`/`lookupEnv` pipeline of `env.go`
  (the variant taking an `*Options` with `Source`, `SliceSep`, `NameSep`,
  lines 412-613 of `env.go`), called `load` / `parseVars` here;
* the earlier `parseVars` of `env.go` lines 114-185, which joins nested
  prefixes unconditionally, called `parseVarsJoin` here;
* the `loader.loadVars` variant of `env.go` lines 298-410 (the one that
  returns `ErrInvalidArgument` instead of panicking), called `loadVarsJ`;
* the coercion engine of `reflect.go` (`setValue`, `setInt`, `setUint`,
  `setFloat`, `setBool`, `setString`, `setDuration`, `setUnmarshaler`,
  `setSlice`);
* the sources of `source.go` (`sources.LookupEnv` of `MultiSource`) and the
  first-found `multiSource` of `unnamed/part_010` together with the
  `WithSource` option of `options.go`.

Go machine integers are modelled as `Nat`/`Int` with explicit range checks
mirroring `strconv`; fallible Go code returns `Except`/`Option`; panics are
modelled as a dedicated outcome constructor carrying the panic message.
Calls into the Go standard library (`strconv.Parse*`, `os.Expand`) are
embedded from their documented semantics; `time.ParseDuration` and user
`UnmarshalText` methods are kept abstract as parameters (record `Ext`),
since no theorem below depends on their behaviour.
-/

set_option autoImplicit false
set_option maxRecDepth 8000
set_option exponentiation.threshold 1200

namespace GoEnv

/-- A `Source` (interface of `source.go`): `LookupEnv` maps a key to an
optional value.  The Go signature `(value string, ok bool)` is modelled as
`Option String` (with `none` for `ok = false`; Go callers that read the
value on `ok = false` see the zero value `""`). -/
abbrev Source := String → Option String

/-- The `Map` source of `source.go`: an in-memory association list
(`map[string]string` with distinct keys). -/
def mapSource (entries : List (String × String)) : Source :=
  fun key => (entries.find? (fun p => p.1 == key)).map (·.2)

/-! ## Types and values

`reflect.Type` / `reflect.Value` information, restricted to what the
package inspects: the reflection kind (with bit width for numeric kinds),
whether the type is exactly `time.Duration` (the `typeOf(v, durationType)`
check), whether the type or a pointer to it implements
`encoding.TextUnmarshaler` (the `implements(v, unmarshalerIface)` check),
and the type's name (printed by `UnsupportedTypeError`). -/

mutual

inductive TKind : Type where
  | intK (bits : Nat)
  | uintK (bits : Nat)
  | floatK (bits : Nat)
  | boolK
  | stringK
  | sliceK (elem : Ty)
  | structK
  | otherK

inductive Ty : Type where
  | mk (kind : TKind) (isDuration : Bool) (um : Bool) (name : String)

end

/-- The reflection kind of a type (`reflect.Value.Kind`). -/
def Ty.kind : Ty → TKind
  | .mk k _ _ _ => k

/-- Whether the type is exactly `time.Duration` (`typeOf(v, durationType)`). -/
def Ty.isDuration : Ty → Bool
  | .mk _ d _ _ => d

/-- Whether the type (or a pointer to it) implements
`encoding.TextUnmarshaler` (`implements(v, unmarshalerIface)`). -/
def Ty.um : Ty → Bool
  | .mk _ _ u _ => u

/-- The printed name of the type. -/
def Ty.name : Ty → String
  | .mk _ _ _ n => n

/-- A Go value stored in a struct field.  `time.Duration` values are kept
as their underlying `int64` nanosecond count (constructor `intV`); values
of user types implementing `encoding.TextUnmarshaler` and of other opaque
types use `otherV`. -/
inductive Val : Type where
  | intV (n : Int)
  | uintV (n : Nat)
  | floatV (q : Rat)
  | boolV (b : Bool)
  | stringV (s : String)
  | sliceV (elems : List Val)
  | otherV (text : String)

/-- `strconv` failure causes: `ErrSyntax` and `ErrRange`. -/
inductive NumErr : Type where
  | syntaxE
  | rangeE
deriving DecidableEq

/-- The error values the package can return.

* `invalidArgument` is `ErrInvalidArgument` of the `loadVars` variant;
* `notSet names` is `*NotSetError{Names: names}`;
* `unsupportedType n` is the unsupported-type failure naming type `n`;
* `parse what e` is a `set*` error wrapping a `strconv` error
  (`fmt.Errorf("parsing int: %w", err)` etc.);
* `durationE m` wraps a `time.ParseDuration` error message;
* `unmarshalE m` wraps an `UnmarshalText` error message. -/
inductive GoErr : Type where
  | invalidArgument
  | notSet (names : List String)
  | unsupportedType (tyName : String)
  | parse (what : String) (e : NumErr)
  | durationE (msg : String)
  | unmarshalE (msg : String)
deriving DecidableEq

/-- External behaviour the coercion engine delegates to: the
`time.ParseDuration` standard-library parser (returning nanoseconds) and
the `UnmarshalText` method of user types (keyed by the type name).  No
theorem in this file depends on either, so they are kept abstract. -/
structure Ext : Type where
  parseDuration : String → Except String Int
  unmarshalText : String → String → Except String Val

/-- A trivial `Ext` used to instantiate theorems on concrete inputs that
never reach the duration or unmarshaler paths. -/
def extNone : Ext :=
  { parseDuration := fun _ => .error "unused"
    unmarshalText := fun _ _ => .error "unused" }

/-! ## `strconv` parsing (embedded from the standard library semantics)

`setInt`/`setUint`/`setFloat`/`setBool` of `reflect.go` call
`strconv.ParseInt(s, 10, bits)`, `strconv.ParseUint(s, 10, bits)`,
`strconv.ParseFloat(s, bits)` and `strconv.ParseBool(s)`.  These are
embedded here over mathematical integers with explicit range checks at the
requested bit width. -/

/-- The numeric value of a list of decimal digits. -/
def digitsVal (cs : List Char) : Nat :=
  cs.foldl (fun n c => n * 10 + (c.toNat - '0'.toNat)) 0

/-- `strconv.ParseUint(s, 10, bits)`: a non-empty all-digit string, with a
range failure above `2^bits - 1`.  (Signs are a syntax error for
`ParseUint`; underscores are only accepted for base 0, not base 10.) -/
def parseUintGo (s : String) (bits : Nat) : Except NumErr Nat :=
  let cs := s.data
  if cs.isEmpty then .error .syntaxE
  else if cs.all Char.isDigit then
    let n := digitsVal cs
    if n > 2 ^ bits - 1 then .error .rangeE else .ok n
  else .error .syntaxE

/-- The digit-and-cutoff phase of `strconv.ParseInt`: digits as in
`ParseUint`, then the signed cutoff check at `2^(bits-1)` (a non-negative
result must be `< 2^(bits-1)`; a negative one must be `≥ -2^(bits-1)`),
yielding `ErrRange` outside that window. -/
def intFromDigits (neg : Bool) (digits : List Char) (bits : Nat) :
    Except NumErr Int :=
  if digits.isEmpty then .error .syntaxE
  else if digits.all Char.isDigit then
    let n := digitsVal digits
    let cutoff := 2 ^ (bits - 1)
    if !neg && n ≥ cutoff then .error .rangeE
    else if neg && n > cutoff then .error .rangeE
    else .ok (if neg then -(n : Int) else (n : Int))
  else .error .syntaxE

/-- `strconv.ParseInt(s, 10, bits)`: an optional sign, then
`intFromDigits`. -/
def parseIntGo (s : String) (bits : Nat) : Except NumErr Int :=
  match s.data with
  | [] => .error .syntaxE
  | c :: rest =>
    let neg : Bool := c = '-'
    let digits : List Char := if c = '-' ∨ c = '+' then rest else c :: rest
    intFromDigits neg digits bits

/-- `strconv.ParseBool`: accepts `1, t, T, TRUE, true, True` and
`0, f, F, FALSE, false, False`. -/
def parseBoolGo (s : String) : Except NumErr Bool :=
  if s = "1" ∨ s = "t" ∨ s = "T" ∨ s = "TRUE" ∨ s = "true" ∨ s = "True" then .ok true
  else if s = "0" ∨ s = "f" ∨ s = "F" ∨ s = "FALSE" ∨ s = "false" ∨ s = "False" then
    .ok false
  else .error .syntaxE

/-- Smallest positive decimal magnitude that still rounds to a non-zero
float of the given width: half of the smallest subnormal.  Magnitudes `≤`
this bound round to `0` and `strconv.ParseFloat` reports `ErrRange`
(the halfway case ties to the even value `0`). -/
def floatUnderflow (bits : Nat) : Rat :=
  if bits = 32 then Rat.divInt 1 ((2 ^ 150 : Nat) : Int)
  else Rat.divInt 1 ((2 ^ 1075 : Nat) : Int)

/-- Smallest decimal magnitude that rounds to infinity at the given width:
the midpoint between the largest finite float and the next power of two.
Magnitudes `≥` this bound overflow and `strconv.ParseFloat` reports
`ErrRange` (the halfway case ties to the even value, infinity). -/
def floatOverflow (bits : Nat) : Rat :=
  if bits = 32 then Rat.divInt (((2 ^ 25 - 1) * 2 ^ 103 : Nat) : Int) 1
  else Rat.divInt (((2 ^ 54 - 1) * 2 ^ 970 : Nat) : Int) 1

/-- Splits a leading run of decimal digits. -/
def takeDigits (cs : List Char) : List Char × List Char :=
  (cs.takeWhile Char.isDigit, cs.dropWhile Char.isDigit)

/-- The `ErrRange` behaviour of `strconv.ParseFloat` at the requested bit
width on an exactly-parsed decimal value: zero passes through; a
magnitude at or above the overflow bound, or a non-zero magnitude at or
below the underflow bound, is `ErrRange`; everything else is returned
(rounding of in-range values to the nearest float is elided). -/
def floatRange (bits : Nat) (q : Rat) : Except NumErr Rat :=
  let mag := if q < 0 then -q else q
  if q = 0 then .ok 0
  else if mag ≥ floatOverflow bits then .error .rangeE
  else if mag ≤ floatUnderflow bits then .error .rangeE
  else .ok q

/-- `d * 10^e` as an exact rational, for a natural mantissa `d` and an
integer exponent `e`. -/
def decScale (d : Nat) (e : Int) : Rat :=
  if 0 ≤ e then Rat.divInt ((d * 10 ^ e.toNat : Nat) : Int) 1
  else Rat.divInt (d : Int) ((10 ^ (-e).toNat : Nat) : Int)

/-- `strconv.ParseFloat(s, bits)`, restricted to the plain decimal
fragment of its grammar: `[+-] digits [. digits] [(e|E) [+-] digits]` with
at least one mantissa digit.  (Hexadecimal floats, `inf`/`nan` spellings
and digit-separating underscores are outside this embedding; no theorem
here concerns them.)  The value is computed exactly as a rational; the
width enters through the overflow/underflow range checks, which mirror
`ParseFloat`'s `ErrRange` behaviour at the requested bit size.  Rounding
of in-range values to the nearest float is elided: the parsed rational
itself is returned. -/
def parseFloatGo (s : String) (bits : Nat) : Except NumErr Rat :=
  match s.data with
  | [] => .error .syntaxE
  | c :: rest =>
    let neg : Bool := c = '-'
    let body : List Char := if c = '-' ∨ c = '+' then rest else c :: rest
    let (ip, afterInt) := takeDigits body
    let (fp, afterFrac) :=
      match afterInt with
      | '.' :: cs => takeDigits cs
      | _ => ([], afterInt)
    if ip.length + fp.length = 0 then .error .syntaxE
    else
      let expPart : Option (Int × List Char) :=
        match afterFrac with
        | 'e' :: cs | 'E' :: cs =>
          let (esign, cs2) :=
            match cs with
            | '-' :: cs' => ((true : Bool), cs')
            | '+' :: cs' => ((false : Bool), cs')
            | _ => ((false : Bool), cs)
          let (ed, cs3) := takeDigits cs2
          if ed.isEmpty then none
          else some (if esign then -(digitsVal ed : Int) else (digitsVal ed : Int), cs3)
        | _ => some (0, afterFrac)
      match expPart with
      | none => .error .syntaxE
      | some (e, trailing) =>
        if ¬trailing.isEmpty then .error .syntaxE
        else
          let mag : Rat := decScale (digitsVal (ip ++ fp)) (e - fp.length)
          floatRange bits (if neg then -mag else mag)

/-! ## The coercion engine (`reflect.go`) -/

/-- `setInt` (`reflect.go` lines 76-84): parse at the field's bit width,
wrapping failures as `parsing int: ...`.  The returned integer is what
`v.SetInt` stores; on error the field is not written. -/
def setInt (bits : Nat) (s : String) : Except GoErr Int :=
  match parseIntGo s bits with
  | .error e => .error (.parse "int" e)
  | .ok n => .ok n

/-- `setUint` (`reflect.go` lines 87-95). -/
def setUint (bits : Nat) (s : String) : Except GoErr Nat :=
  match parseUintGo s bits with
  | .error e => .error (.parse "uint" e)
  | .ok n => .ok n

/-- `setFloat` (`reflect.go` lines 98-106). -/
def setFloat (bits : Nat) (s : String) : Except GoErr Rat :=
  match parseFloatGo s bits with
  | .error e => .error (.parse "float" e)
  | .ok q => .ok q

/-- `setBool` (`reflect.go` lines 109-116). -/
def setBool (s : String) : Except GoErr Bool :=
  match parseBoolGo s with
  | .error e => .error (.parse "bool" e)
  | .ok b => .ok b

/-- `setString` (`reflect.go` lines 119-122): verbatim, never fails. -/
def setString (s : String) : Except GoErr String :=
  .ok s

/-- `setDuration` (`reflect.go` lines 126-133): delegates to
`time.ParseDuration`, wrapping failures as `parsing duration: ...`. -/
def setDuration (ext : Ext) (s : String) : Except GoErr Int :=
  match ext.parseDuration s with
  | .error m => .error (.durationE m)
  | .ok d => .ok d

/-- `setUnmarshaler` (`reflect.go` lines 136-142): calls the field type's
`UnmarshalText` method, wrapping failures as `unmarshaling text: ...`. -/
def setUnmarshaler (ext : Ext) (tyName s : String) : Except GoErr Val :=
  match ext.unmarshalText tyName s with
  | .error m => .error (.unmarshalE m)
  | .ok v => .ok v

/-- `setValue` (`reflect.go` lines 54-73): dispatch on the target type,
first match wins, in the source's `switch` order: exactly `time.Duration`;
then `encoding.TextUnmarshaler`; then the signed integer, unsigned
integer, floating-point, boolean and string kinds; anything else is an
unsupported-type failure naming the type. -/
def setValue (ext : Ext) (t : Ty) (s : String) : Except GoErr Val :=
  match t with
  | .mk k isDur um name =>
    if isDur then (setDuration ext s).map Val.intV
    else if um then setUnmarshaler ext name s
    else
      match k with
      | .intK bits => (setInt bits s).map Val.intV
      | .uintK bits => (setUint bits s).map Val.uintV
      | .floatK bits => (setFloat bits s).map Val.floatV
      | .boolK => (setBool s).map Val.boolV
      | .stringK => (setString s).map Val.stringV
      | _ => .error (.unsupportedType name)

/-- `setSlice` (`reflect.go` lines 146-155): coerce each piece with
`setValue`; the first element failure is returned and nothing is assigned
(the freshly built slice is only stored by `v.Set(slice)` after the loop
finishes with no error). -/
def setSlice (ext : Ext) (elem : Ty) : List String → Except GoErr (List Val)
  | [] => .ok []
  | p :: ps =>
    match setValue ext elem p with
    | .error e => .error e
    | .ok v =>
      match setSlice ext elem ps with
      | .error e => .error e
      | .ok vs => .ok (v :: vs)

/-! ## `strings.Split` (embedded from the standard library)

Both the tag grammar (`strings.Split(value, ",")`) and slice parsing
(`strings.Split(value, opts.SliceSep)`) use Go's `strings.Split`.  It is
embedded here over lists of characters: scan left to right, cutting at
each leftmost non-overlapping occurrence of the separator; an empty
separator splits the string into its characters.  The scan is written
with an explicit step budget (one unit per character, which the scan
never exhausts, since every step consumes at least one character) so
that it is structurally recursive. -/

/-- One split scan: `acc` holds the current piece (in order); on a
separator occurrence the piece is emitted and the separator skipped. -/
def splitSepAux (sep : List Char) : Nat → List Char → List Char → List (List Char)
  | _, [], acc => [acc]
  | 0, s, acc => [acc ++ s]
  | fuel + 1, c :: rest, acc =>
    if sep.isPrefixOf (c :: rest) then
      acc :: splitSepAux sep fuel ((c :: rest).drop sep.length) []
    else
      splitSepAux sep fuel rest (acc ++ [c])

/-- Go's `strings.Split(s, sep)`. -/
def stringsSplit (s sep : String) : List String :=
  if sep = "" then s.data.map (fun c => String.mk [c])
  else (splitSepAux sep.data s.data.length s.data []).map String.mk

/-! ## `fmt.Sprintf("%v", ...)` on field values

`parseVars` re-serializes a field's current value with `%v` when the field
is neither required nor carries a `default` tag.  The embedding below
covers `%v` for the value forms instantiated in this development (signed
and unsigned integers, booleans, strings, slices).  The `String()`-method
formatting that `%v` applies to `time.Duration`, and the reflective struct
formatting of opaque user values, are not modelled: `otherV` carries its
own printed text and `floatV` uses the `Rat` printer.  No theorem below
depends on those two cases. -/

mutual

def sprintfV : Val → String
  | .intV n => toString n
  | .uintV n => toString n
  | .floatV q => toString q
  | .boolV b => if b then "true" else "false"
  | .stringV s => s
  | .sliceV l => "[" ++ " ".intercalate (sprintfVList l) ++ "]"
  | .otherV t => t

def sprintfVList : List Val → List String
  | [] => []
  | v :: vs => sprintfV v :: sprintfVList vs

end

/-! ## The configuration struct and parsed variables -/

/-- The struct tags the package reads from a field: the `env` binding tag,
the `default` tag, and the `usage` tag (`Tag.Lookup "env"`,
`Tag.Lookup "default"`, `Tag.Get "usage"`). -/
structure Tags : Type where
  env : Option String
  dflt : Option String
  usage : String

/-- Struct tags with none of the three tags present. -/
def Tags.none : Tags :=
  { env := Option.none, dflt := Option.none, usage := "" }

/-- Struct tags with only the `env` tag set. -/
def Tags.envTag (v : String) : Tags :=
  { env := some v, dflt := Option.none, usage := "" }

/-- A field of the configuration struct.

* `scalar` is any field for which
  `kindOf(field, reflect.Struct) && !implements(field, unmarshalerIface)`
  is false, i.e. a non-struct field or a struct implementing
  `encoding.TextUnmarshaler`; it carries its type and current value.
* `nested` is a struct field not implementing `encoding.TextUnmarshaler`;
  the walker recurses into it.

`canSet` is `reflect.Value.CanSet` (false for unexported fields). -/
inductive Field : Type where
  | scalar (tags : Tags) (canSet : Bool) (ty : Ty) (val : Val)
  | nested (tags : Tags) (canSet : Bool) (children : List Field)

/-- A parsed variable (`Var` of `usage.go` / `env.go`).  `fieldVal` models
the current contents of the struct field referenced by the Go `structField`
handle (the loader mutates the field through that handle; here the final
field states are returned alongside the result). -/
structure Var : Type where
  name : String
  ty : Ty
  usage : String
  dflt : String
  required : Bool
  expand : Bool
  fieldVal : Val
  hasDefaultTag : Bool

/-- The flag-parsing loop of `parseVars`: starting from
`required = expand = false`, each comma-separated option sets its flag;
an unrecognized option panics (modelled as `.error` carrying the panic
message). -/
def parseOptions : List String → Bool → Bool → Except String (Bool × Bool)
  | [], required, expand => .ok (required, expand)
  | o :: os, required, expand =>
    if o = "required" then parseOptions os true expand
    else if o = "expand" then parseOptions os required true
    else .error ("env: invalid tag option `" ++ o ++ "`")

/-- The per-leaf body shared by the `parseVars` variants of `env.go`
(lines 140-181 and 553-593): skip fields without an `env` tag, split the
tag on commas, panic on an empty name or invalid option, resolve the
default string (`default` tag if present — panicking if combined with
`required` — else the `%v` re-serialization of the current field value
when not required), and build the `Var`. -/
def parseLeaf (tags : Tags) (ty : Ty) (val : Val) : Except String (Option Var) :=
  match tags.env with
  | Option.none => .ok Option.none
  | some tagVal =>
    match stringsSplit tagVal "," with
    | [] => .ok Option.none
    | name :: options =>
      if name = "" then .error "env: empty tag name is not allowed"
      else
        match parseOptions options false false with
        | .error m => .error m
        | .ok (required, expand) =>
          let defSet := tags.dflt.isSome
          if defSet ∧ required then
            .error "env: `required` and `default` can't be used simultaneously"
          else
            let defValue :=
              match tags.dflt with
              | some d => d
              | Option.none => if required then "" else sprintfV val
            .ok (some
              { name := name
                ty := ty
                usage := tags.usage
                dflt := defValue
                required := required
                expand := expand
                fieldVal := val
                hasDefaultTag := defSet })

/-- `parseVars` of the current variant (`env.go` lines 530-597), over a
list of struct fields: unexported fields are skipped; a `nested` field
contributes its children's variables, with `prefix = tag + NameSep`
prepended to their names when the struct field has an `env` tag and
nothing prepended otherwise; a `scalar` field contributes its `Var` as
computed by `parseLeaf`. -/
def parseVars (nameSep : String) : List Field → Except String (List Var)
  | [] => .ok []
  | f :: rest =>
    match f with
    | .scalar tags canSet ty val =>
      if canSet then
        match parseLeaf tags ty val with
        | .error m => .error m
        | .ok Option.none =>
          parseVars nameSep rest
        | .ok (some v) =>
          match parseVars nameSep rest with
          | .error m => .error m
          | .ok vs => .ok (v :: vs)
      else parseVars nameSep rest
    | .nested tags canSet children =>
      if canSet then
        let pfx :=
          match tags.env with
          | some v => v ++ nameSep
          | Option.none => ""
        match parseVars nameSep children with
        | .error m => .error m
        | .ok inner =>
          match parseVars nameSep rest with
          | .error m => .error m
          | .ok vs => .ok (inner.map (fun v => { v with name := pfx ++ v.name }) ++ vs)
      else parseVars nameSep rest

/-- `parseVars` of the earlier variant (`env.go` lines 114-185): identical
to `parseVars` except for the nested-struct branch, which always joins
with the separator — `v.Name = prefix + nameSep + v.Name` — even when the
nested struct field carries no `env` tag (in which case `prefix` is the
empty string). -/
def parseVarsJoin (nameSep : String) : List Field → Except String (List Var)
  | [] => .ok []
  | f :: rest =>
    match f with
    | .scalar tags canSet ty val =>
      if canSet then
        match parseLeaf tags ty val with
        | .error m => .error m
        | .ok Option.none =>
          parseVarsJoin nameSep rest
        | .ok (some v) =>
          match parseVarsJoin nameSep rest with
          | .error m => .error m
          | .ok vs => .ok (v :: vs)
      else parseVarsJoin nameSep rest
    | .nested tags canSet children =>
      if canSet then
        let pfx :=
          match tags.env with
          | some v => v
          | Option.none => ""
        match parseVarsJoin nameSep children with
        | .error m => .error m
        | .ok inner =>
          match parseVarsJoin nameSep rest with
          | .error m => .error m
          | .ok vs =>
            .ok (inner.map (fun v => { v with name := pfx ++ nameSep ++ v.name }) ++ vs)
      else parseVarsJoin nameSep rest

/-! ## `os.Expand` (embedded from the standard library)

`lookupEnv` (`env.go` lines 599-612) interpolates a found value with
`os.Expand(value, mapping)` when the `expand` flag is set.  The embedding
below follows `os.Expand`/`getShellName`/`isShellSpecialVar`/`isAlphaNum`
from the Go standard library, over lists of characters. -/

/-- `os.isShellSpecialVar`: `* # $ @ ! ?` and the decimal digits. -/
def isShellSpecialVar (c : Char) : Bool :=
  c == '*' || c == '#' || c == '$' || c == '@' || c == '!' || c == '?' || c.isDigit

/-- `os.isAlphaNum`: underscore, digits and ASCII letters. -/
def isAlphaNum (c : Char) : Bool :=
  c == '_' || c.isDigit || c.isAlpha

/-- The brace-scanning loop of `os.getShellName`, over `s[1:]` (the input
minus the opening `{`): scan for the first `}`; no `}` eats just `${`,
an immediate `}` eats `${}`, and otherwise the name is everything up to
the `}`, with `name.length + 2` characters of `s[1:]` consumed in total
(counted from after the `$`, i.e. including the braces). -/
def braceScan (rest : List Char) : String × Nat :=
  match rest.findIdx? (· == '}') with
  | Option.none => ("", 1)
  | some 0 => ("", 2)
  | some j => (String.mk (rest.take j), j + 2)

/-- The `s[0] == '{'` arm of `os.getShellName`: the
`len(s) > 2 && isShellSpecialVar(s[1]) && s[2] == '}'` fast path for
`${!}`-style names, then the brace scan. -/
def getShellNameBrace (rest : List Char) : String × Nat :=
  match rest with
  | c1 :: c2 :: _ =>
    if isShellSpecialVar c1 && c2 == '}' then (String.mk [c1], 3)
    else braceScan rest
  | _ => braceScan rest

/-- `os.getShellName`, applied to the characters following a `$`: a braced
name `{...}` (with the single-special-character fast path), a single
shell-special character, or a maximal run of alphanumeric characters.
Returns the name and the number of characters consumed. -/
def getShellName : List Char → String × Nat
  | [] => ("", 0)
  | c :: rest =>
    if c = '{' then getShellNameBrace rest
    else if isShellSpecialVar c then (String.mk [c], 1)
    else
      let nm := (c :: rest).takeWhile isAlphaNum
      (String.mk nm, nm.length)

/-- `os.Expand` over characters: each `$name` or `${name}` is replaced by
`mapping name`; a `$` followed by invalid syntax is eaten, a `$` followed
by no name at all (or ending the string) is kept verbatim. -/
def expandChars (mapping : String → String) : List Char → List Char
  | [] => []
  | c :: rest =>
    if c = '$' then
      let p := getShellName rest
      if p.1 = "" ∧ p.2 > 0 then expandChars mapping (rest.drop p.2)
      else if p.1 = "" then '$' :: expandChars mapping rest
      else (mapping p.1).data ++ expandChars mapping (rest.drop p.2)
    else c :: expandChars mapping rest
termination_by cs => cs.length
decreasing_by
  · simp only [List.length_drop, List.length_cons]
    omega
  · simp only [List.length_cons]
    omega
  · simp only [List.length_drop, List.length_cons]
    omega
  · simp only [List.length_cons]
    omega

/-- `os.Expand` on strings. -/
def osExpand (s : String) (mapping : String → String) : String :=
  String.mk (expandChars mapping s.data)

/-- `lookupEnv` (`env.go` lines 599-612): query the source; on a miss
report not-found; on a hit, return the value as-is unless the `expand`
flag is set, in which case interpolate it with `os.Expand`, the mapping
querying the same source again and turning a missing interpolation target
into the empty string (`v, _ := src.LookupEnv(key)`). -/
def lookupEnv (src : Source) (key : String) (expand : Bool) : Option String :=
  match src key with
  | Option.none => Option.none
  | some value =>
    if !expand then some value
    else some (osExpand value (fun k => (src k).getD ""))

/-! ## The `Load` pipeline (current variant, `env.go` lines 412-613) -/

/-- `Options` (`env.go` lines 422-427): the source (`none` models a nil
`Source`), the slice separator and the name separator. -/
structure Options : Type where
  source : Option Source
  sliceSep : String
  nameSep : String

/-- `setDefaultOptions` (`env.go` lines 517-528): a nil `*Options` becomes
the zero `Options`; a nil source defaults to `OS` (passed here as
`osEnv`); an empty slice separator defaults to a single space.  Returns
the resolved `(source, sliceSep, nameSep)`. -/
def setDefaultOptions (osEnv : Source) (opts : Option Options) :
    Source × String × String :=
  let o := opts.getD { source := Option.none, sliceSep := "", nameSep := "" }
  (o.source.getD osEnv, if o.sliceSep = "" then " " else o.sliceSep, o.nameSep)

/-- The element type of a slice-kinded type, if any
(`kindOf(v, reflect.Slice)`). -/
def sliceElem? : Ty → Option Ty
  | .mk (.sliceK e) _ _ _ => some e
  | _ => Option.none

/-- The per-variable store step of the `Load` loop (`env.go` lines
499-504): a slice-kinded field whose type does not implement
`encoding.TextUnmarshaler` is handled by `setSlice` on the value split on
the slice separator; every other field goes through `setValue`. -/
def coerceStore (ext : Ext) (sliceSep : String) (t : Ty) (value : String) :
    Except GoErr Val :=
  match sliceElem? t with
  | some elem =>
    if t.um then setValue ext t value
    else (setSlice ext elem (stringsSplit value sliceSep)).map Val.sliceV
  | Option.none => setValue ext t value

/-- The variable loop of `Load` (`env.go` lines 485-514), with the field
states carried explicitly: for each variable, look the name up (with
expansion); on a miss, a required variable records its name in the
missing list and is skipped, a variable without a `default` tag is
skipped, and otherwise the default string is used as the value; the value
is then coerced and stored, a coercion failure being returned immediately
(leaving the failing field and all later fields at their previous
values).  After the loop, a non-empty missing list is returned as
`NotSetError`.  Returns the final field states and the returned error,
if any. -/
def loadLoop (ext : Ext) (src : Source) (sliceSep : String) :
    List Var → List String → List Var × Option GoErr
  | [], notset =>
    ([], if notset.isEmpty then Option.none else some (.notSet notset))
  | v :: rest, notset =>
    match lookupEnv src v.name v.expand with
    | Option.none =>
      if v.required then
        let p := loadLoop ext src sliceSep rest (notset ++ [v.name])
        (v :: p.1, p.2)
      else if !v.hasDefaultTag then
        let p := loadLoop ext src sliceSep rest notset
        (v :: p.1, p.2)
      else
        match coerceStore ext sliceSep v.ty v.dflt with
        | .error e => (v :: rest, some e)
        | .ok newVal =>
          let p := loadLoop ext src sliceSep rest notset
          ({ v with fieldVal := newVal } :: p.1, p.2)
    | some value =>
      match coerceStore ext sliceSep v.ty value with
      | .error e => (v :: rest, some e)
      | .ok newVal =>
        let p := loadLoop ext src sliceSep rest notset
        ({ v with fieldVal := newVal } :: p.1, p.2)

/-- The argument passed to `Load`/`loadVars` as seen by `structPtr`
(`reflect.go` lines 48-50): `nilArg` is a nil interface value (for which
`reflect.ValueOf` is invalid), `nonPointer` fails the `Kind() ==
reflect.Ptr` check, `pointerToNonStruct` fails the `Elem().Kind() ==
reflect.Struct` check, `nilStructPointer` fails the `!IsNil()` check, and
`structPointer` carries the pointed-to struct's fields. -/
inductive Arg : Type where
  | nilArg
  | nonPointer
  | pointerToNonStruct
  | nilStructPointer
  | structPointer (fields : List Field)

/-- `structPtr` (`reflect.go` lines 48-50): true exactly for a non-nil
struct pointer. -/
def structPtr : Arg → Bool
  | .structPointer _ => true
  | _ => false

/-- The outcome of a `Load` call: a Go panic carrying its message, or a
normal return carrying the final states of the parsed fields and the
returned error (`none` for a nil error). -/
inductive LoadOut : Type where
  | panicked (msg : String)
  | result (vars : List Var) (err : Option GoErr)

/-- `Load` (`env.go` lines 473-515): panic unless the argument is a
non-nil struct pointer — this check comes first, before options are
defaulted and before any field traversal; then parse the variables
(`parseVars` may panic on malformed tags) and run the variable loop. -/
def load (ext : Ext) (osEnv : Source) (cfg : Arg) (opts : Option Options) :
    LoadOut :=
  match cfg with
  | .structPointer fields =>
    let (src, sliceSep, nameSep) := setDefaultOptions osEnv opts
    match parseVars nameSep fields with
    | .error m => .panicked m
    | .ok vars =>
      let p := loadLoop ext src sliceSep vars []
      .result p.1 p.2
  | _ => .panicked "env: cfg must be a non-nil struct pointer"

/-! ## The `loader.loadVars` variant (`env.go` lines 298-410)

This earlier variant returns `ErrInvalidArgument` instead of panicking,
supports no `expand`/`default`, treats only `parts[1] == "required"` as
the required flag, silently skips empty names, and prefixes every name
with the loader's configured prefix. -/

/-- The `loader` struct (`env.go` lines 299-303). -/
structure LoaderJ : Type where
  provider : Source
  pfx : String
  sliceSep : String

/-- `loader.parseVars` (`env.go` lines 359-402): skip unexported fields,
recurse into nested structs with no name manipulation, skip fields
without an `env` tag or with an empty name, mark required when the first
comma-separated option is `required`, and prefix the name.  This variant
never panics. -/
def parseVarsJ (l : LoaderJ) : List Field → List Var
  | [] => []
  | f :: rest =>
    match f with
    | .scalar tags canSet ty val =>
      if canSet then
        match tags.env with
        | Option.none => parseVarsJ l rest
        | some tagVal =>
          match stringsSplit tagVal "," with
          | [] => parseVarsJ l rest
          | name :: parts =>
            if name = "" then parseVarsJ l rest
            else
              { name := l.pfx ++ name
                ty := ty
                usage := ""
                dflt := ""
                required := parts.head? == some "required"
                expand := false
                fieldVal := val
                hasDefaultTag := false } :: parseVarsJ l rest
      else parseVarsJ l rest
    | .nested _ canSet children =>
      if canSet then parseVarsJ l children ++ parseVarsJ l rest
      else parseVarsJ l rest

/-- The variable loop of `loader.loadVars` (`env.go` lines 330-348):
like `loadLoop` but with no expansion and no default values — a missing
variable is always skipped, recording its name when required. -/
def loadLoopJ (ext : Ext) (src : Source) (sliceSep : String) :
    List Var → List String → List Var × Option GoErr
  | [], notset =>
    ([], if notset.isEmpty then Option.none else some (.notSet notset))
  | v :: rest, notset =>
    match src v.name with
    | Option.none =>
      let ns := if v.required then notset ++ [v.name] else notset
      let p := loadLoopJ ext src sliceSep rest ns
      (v :: p.1, p.2)
    | some value =>
      match coerceStore ext sliceSep v.ty value with
      | .error e => (v :: rest, some e)
      | .ok newVal =>
        let p := loadLoopJ ext src sliceSep rest notset
        ({ v with fieldVal := newVal } :: p.1, p.2)

/-- `loader.loadVars` (`env.go` lines 320-355): first check the argument
with `structPtr` and return `ErrInvalidArgument` — never panicking — when
it fails, before any traversal; then parse and process the variables.
Returns the final field states and the error, if any. -/
def loadVarsJ (ext : Ext) (l : LoaderJ) (dst : Arg) :
    List Var × Option GoErr :=
  match dst with
  | .structPointer fields =>
    loadLoopJ ext l.provider l.sliceSep (parseVarsJ l fields) []
  | _ => ([], some .invalidArgument)

/-! ## Composite sources -/

/-- `sources.LookupEnv` (`source.go` lines 35-45, the `MultiSource`
combinator): iterate over all combined sources in registration order,
overwriting the running value on every hit, so the last defining source
wins. -/
def sourcesLookupEnv (ss : List Source) (key : String) : Option String :=
  ss.foldl
    (fun acc s =>
      match s key with
      | some v => some v
      | Option.none => acc)
    Option.none

/-- `multiSource.LookupEnv` (`unnamed/part_010` lines 29-38): return the
first hit. -/
def multiSourceLookupEnv (ss : List Source) (key : String) : Option String :=
  match ss with
  | [] => Option.none
  | s :: rest =>
    match s key with
    | some v => some v
    | Option.none => multiSourceLookupEnv rest key

/-- The source list built by `WithSource(src, srcs...)` (`options.go`
lines 10-16): the trailing sources reversed, then the first argument —
so that the first-found `multiSource` lookup makes the later-given
source take precedence. -/
def withSourceList (src : Source) (srcs : List Source) : List Source :=
  srcs.reverse ++ [src]

/-! ## Characterizing the variable loop

The following definitions describe what the `Load` loop does to a single
variable, so that the loop's behaviour on a list can be stated: the
resolved string (found value, expanded value, or default — `none` when
the variable is skipped), the resulting coercion outcome, the coercion
error if any, and the updated variable. -/

/-- The string the loop coerces for a variable, if any: the looked-up
(possibly expanded) value; on a miss, `none` for a required variable or
one without a `default` tag, and the default string otherwise. -/
def resolveValue (src : Source) (v : Var) : Option String :=
  match lookupEnv src v.name v.expand with
  | some value => some value
  | Option.none =>
    if v.required then Option.none
    else if !v.hasDefaultTag then Option.none
    else some v.dflt

/-- The coercion outcome for one variable (`none` when skipped). -/
def stepVar (ext : Ext) (src : Source) (sliceSep : String) (v : Var) :
    Option (Except GoErr Val) :=
  (resolveValue src v).map (coerceStore ext sliceSep v.ty)

/-- The coercion error for one variable, if any. -/
def stepErr (ext : Ext) (src : Source) (sliceSep : String) (v : Var) :
    Option GoErr :=
  match stepVar ext src sliceSep v with
  | some (.error e) => some e
  | _ => Option.none

/-- The final state of one variable's field when the loop runs past it:
updated on a successful coercion, untouched otherwise. -/
def updateVar (ext : Ext) (src : Source) (sliceSep : String) (v : Var) : Var :=
  match stepVar ext src sliceSep v with
  | some (.ok newVal) => { v with fieldVal := newVal }
  | _ => v

/-- The names of all required variables absent from the source, in
declaration order — the missing-set the spec describes. -/
def missingFrom (src : Source) (vars : List Var) : List String :=
  (vars.filter
    (fun v => v.required && (lookupEnv src v.name v.expand).isNone)).map (·.name)

section LoopLemmas

variable (ext : Ext) (src : Source) (sliceSep : String)

theorem loadLoop_cons_miss_req {v : Var} (rest : List Var) (ns : List String)
    (hl : lookupEnv src v.name v.expand = Option.none) (hr : v.required = true) :
    loadLoop ext src sliceSep (v :: rest) ns =
      ((v :: (loadLoop ext src sliceSep rest (ns ++ [v.name])).1),
        (loadLoop ext src sliceSep rest (ns ++ [v.name])).2) := by
  simp [loadLoop, hl, hr]

theorem loadLoop_cons_skip {v : Var} (rest : List Var) (ns : List String)
    (hl : lookupEnv src v.name v.expand = Option.none) (hr : v.required = false)
    (hd : v.hasDefaultTag = false) :
    loadLoop ext src sliceSep (v :: rest) ns =
      ((v :: (loadLoop ext src sliceSep rest ns).1),
        (loadLoop ext src sliceSep rest ns).2) := by
  simp [loadLoop, hl, hr, hd]

theorem loadLoop_cons_coerce {v : Var} (rest : List Var) (ns : List String)
    {raw : String} (hs : resolveValue src v = some raw) :
    loadLoop ext src sliceSep (v :: rest) ns =
      match coerceStore ext sliceSep v.ty raw with
      | .error e => (v :: rest, some e)
      | .ok newVal =>
        ({ v with fieldVal := newVal } :: (loadLoop ext src sliceSep rest ns).1,
          (loadLoop ext src sliceSep rest ns).2) := by
  unfold resolveValue at hs
  rcases h : lookupEnv src v.name v.expand with _ | value
  · rw [h] at hs
    rcases hr : v.required with _ | _
    · rcases hd : v.hasDefaultTag with _ | _
      · simp [hr, hd] at hs
      · simp [hr, hd] at hs
        subst hs
        simp [loadLoop, h, hr, hd]
    · simp [hr] at hs
  · rw [h] at hs
    injection hs with hs
    subst hs
    simp [loadLoop, h]

theorem resolveValue_none_cases {v : Var}
    (h : resolveValue src v = Option.none) :
    lookupEnv src v.name v.expand = Option.none ∧
      (v.required = true ∨ (v.required = false ∧ v.hasDefaultTag = false)) := by
  unfold resolveValue at h
  rcases hl : lookupEnv src v.name v.expand with _ | value
  · rw [hl] at h
    refine ⟨rfl, ?_⟩
    rcases hr : v.required with _ | _
    · rcases hd : v.hasDefaultTag with _ | _
      · exact Or.inr ⟨rfl, rfl⟩
      · simp [hr, hd] at h
    · exact Or.inl rfl
  · rw [hl] at h
    cases h

theorem resolveValue_some_not_missing {v : Var} {raw : String}
    (h : resolveValue src v = some raw) :
    (v.required && (lookupEnv src v.name v.expand).isNone) = false := by
  unfold resolveValue at h
  rcases hl : lookupEnv src v.name v.expand with _ | value
  · rw [hl] at h
    rcases hr : v.required with _ | _
    · simp [hr]
    · simp [hr] at h
  · simp [hl]

theorem stepVar_none {v : Var} (h : resolveValue src v = Option.none) :
    stepVar ext src sliceSep v = Option.none := by
  simp [stepVar, h]

theorem stepErr_some_iff {v : Var} {e : GoErr} :
    stepErr ext src sliceSep v = some e ↔
      ∃ raw, resolveValue src v = some raw ∧
        coerceStore ext sliceSep v.ty raw = .error e := by
  constructor
  · intro h
    unfold stepErr stepVar at h
    rcases hres : resolveValue src v with _ | raw
    · rw [hres] at h
      cases h
    · rw [hres] at h
      rcases hc : coerceStore ext sliceSep v.ty raw with e' | val
      · simp only [Option.map_some', hc] at h
        exact ⟨raw, rfl, by rw [hc]; injection h with h; rw [h]⟩
      · simp [hc] at h
  · rintro ⟨raw, hres, hc⟩
    simp [stepErr, stepVar, hres, hc]

theorem stepErr_none_coerce_ok {v : Var} {raw : String}
    (hres : resolveValue src v = some raw)
    (he : stepErr ext src sliceSep v = Option.none) :
    ∃ val, coerceStore ext sliceSep v.ty raw = .ok val := by
  rcases hc : coerceStore ext sliceSep v.ty raw with e | val
  · exfalso
    have : stepErr ext src sliceSep v = some e := by
      simp [stepErr, stepVar, hres, hc]
    rw [he] at this
    cases this
  · exact ⟨val, rfl⟩

theorem updateVar_of_none {v : Var} (h : resolveValue src v = Option.none) :
    updateVar ext src sliceSep v = v := by
  simp [updateVar, stepVar, h]

theorem updateVar_of_ok {v : Var} {raw : String} {val : Val}
    (hres : resolveValue src v = some raw)
    (hc : coerceStore ext sliceSep v.ty raw = .ok val) :
    updateVar ext src sliceSep v = { v with fieldVal := val } := by
  simp [updateVar, stepVar, hres, hc]

theorem missingFrom_cons {v : Var} (rest : List Var) :
    missingFrom src (v :: rest) =
      (if v.required && (lookupEnv src v.name v.expand).isNone
       then [v.name] else []) ++ missingFrom src rest := by
  rcases hb : (v.required && (lookupEnv src v.name v.expand).isNone) with _ | _
  · simp [missingFrom, List.filter_cons, hb]
  · simp [missingFrom, List.filter_cons, hb]

/-- When no variable's coercion fails, the loop updates every field whose
coercion ran, leaves the rest untouched, and returns the `NotSetError`
aggregating the names of all required-and-absent variables (none when
there are none). -/
theorem loadLoop_all_ok (vars : List Var)
    (h : ∀ u ∈ vars, stepErr ext src sliceSep u = Option.none) :
    ∀ ns, loadLoop ext src sliceSep vars ns =
      (vars.map (updateVar ext src sliceSep),
        if (ns ++ missingFrom src vars).isEmpty then Option.none
        else some (.notSet (ns ++ missingFrom src vars))) := by
  induction vars with
  | nil =>
    intro ns
    simp [loadLoop, missingFrom]
  | cons v rest ih =>
    intro ns
    have hrest : ∀ u ∈ rest, stepErr ext src sliceSep u = Option.none :=
      fun u hu => h u (List.mem_cons_of_mem _ hu)
    have hv : stepErr ext src sliceSep v = Option.none := h v (List.mem_cons_self _ _)
    rcases hres : resolveValue src v with _ | raw
    · obtain ⟨hl, hcase⟩ := resolveValue_none_cases src hres
      rcases hcase with hr | ⟨hr, hd⟩
      · rw [loadLoop_cons_miss_req ext src sliceSep rest ns hl hr,
          ih hrest (ns ++ [v.name])]
        rw [missingFrom_cons]
        simp [hl, hr, updateVar_of_none ext src sliceSep hres]
      · rw [loadLoop_cons_skip ext src sliceSep rest ns hl hr hd,
          ih hrest ns]
        rw [missingFrom_cons]
        simp [hl, hr, updateVar_of_none ext src sliceSep hres]
    · obtain ⟨val, hc⟩ := stepErr_none_coerce_ok ext src sliceSep hres hv
      rw [loadLoop_cons_coerce ext src sliceSep rest ns hres, hc]
      rw [ih hrest ns, missingFrom_cons]
      simp [resolveValue_some_not_missing src hres,
        updateVar_of_ok ext src sliceSep hres hc]

/-- When the variables split as `pre ++ v :: suf` with every variable of
`pre` coercing without error and `v`'s coercion failing with `e`, the
loop stops at `v`: it returns exactly `e` (discarding any accumulated
missing names), the fields of `pre` are updated, and `v` and everything
after it keep their previous values. -/
theorem loadLoop_first_err (pre : List Var) (v : Var) (suf : List Var)
    (e : GoErr)
    (hpre : ∀ u ∈ pre, stepErr ext src sliceSep u = Option.none)
    (hv : stepErr ext src sliceSep v = some e) :
    ∀ ns, loadLoop ext src sliceSep (pre ++ v :: suf) ns =
      (pre.map (updateVar ext src sliceSep) ++ v :: suf, some e) := by
  induction pre with
  | nil =>
    intro ns
    obtain ⟨raw, hres, hc⟩ := (stepErr_some_iff ext src sliceSep).mp hv
    rw [List.nil_append, loadLoop_cons_coerce ext src sliceSep suf ns hres, hc]
    simp
  | cons u pre' ih =>
    intro ns
    have hu : stepErr ext src sliceSep u = Option.none :=
      hpre u (List.mem_cons_self _ _)
    have hpre' : ∀ w ∈ pre', stepErr ext src sliceSep w = Option.none :=
      fun w hw => hpre w (List.mem_cons_of_mem _ hw)
    rcases hres : resolveValue src u with _ | raw
    · obtain ⟨hl, hcase⟩ := resolveValue_none_cases src hres
      rcases hcase with hr | ⟨hr, hd⟩
      · rw [List.cons_append,
          loadLoop_cons_miss_req ext src sliceSep _ ns hl hr,
          ih hpre' (ns ++ [u.name])]
        simp [updateVar_of_none ext src sliceSep hres]
      · rw [List.cons_append,
          loadLoop_cons_skip ext src sliceSep _ ns hl hr hd,
          ih hpre' ns]
        simp [updateVar_of_none ext src sliceSep hres]
    · obtain ⟨val, hc⟩ := stepErr_none_coerce_ok ext src sliceSep hres hu
      rw [List.cons_append, loadLoop_cons_coerce ext src sliceSep _ ns hres, hc,
        ih hpre' ns]
      simp [updateVar_of_ok ext src sliceSep hres hc]

/-- A required variable absent from the source keeps its previous field
value, no matter what happens to the variables around it: position
`pre.length` of the final field states still holds `v` itself. -/
theorem loadLoop_skip_get (pre : List Var) (v : Var) (suf : List Var)
    (hr : v.required = true)
    (hl : lookupEnv src v.name v.expand = Option.none) :
    ∀ ns, ((loadLoop ext src sliceSep (pre ++ v :: suf) ns).1)[pre.length]? =
      some v := by
  induction pre with
  | nil =>
    intro ns
    rw [List.nil_append, loadLoop_cons_miss_req ext src sliceSep suf ns hl hr]
    simp
  | cons u pre' ih =>
    intro ns
    rcases hres : resolveValue src u with _ | raw
    · obtain ⟨hl', hcase⟩ := resolveValue_none_cases src hres
      rcases hcase with hr' | ⟨hr', hd'⟩
      · rw [List.cons_append,
          loadLoop_cons_miss_req ext src sliceSep _ ns hl' hr']
        simpa using ih (ns ++ [u.name])
      · rw [List.cons_append,
          loadLoop_cons_skip ext src sliceSep _ ns hl' hr' hd']
        simpa using ih ns
    · rcases hc : coerceStore ext sliceSep u.ty raw with e | val
      · rw [List.cons_append, loadLoop_cons_coerce ext src sliceSep _ ns hres, hc]
        simp only [List.length_cons, List.getElem?_cons_succ]
        rw [List.getElem?_append_right (Nat.le_refl _)]
        simp
      · rw [List.cons_append, loadLoop_cons_coerce ext src sliceSep _ ns hres, hc]
        simpa using ih ns

end LoopLemmas

/-! ## Precedence of composite sources -/

/-- The lookup policy the specification prescribes for a composite source,
in its own words: of the sources that define the key, the last-registered
one wins.  (Written as: search the reversed registration order for the
first source defining the key.) -/
def lastRegisteredWins (ss : List Source) (key : String) : Option String :=
  ss.reverse.findSome? (fun s => s key)

theorem sourcesFold_eq (key : String) (ss : List Source) :
    ∀ acc : Option String,
      ss.foldl
        (fun acc s =>
          match s key with
          | some v => some v
          | Option.none => acc)
        acc =
      (ss.reverse.findSome? (fun s => s key)).or acc := by
  induction ss with
  | nil =>
    intro acc
    simp
  | cons s rest ih =>
    intro acc
    have hstep :
        (match s key with
         | some v => some v
         | Option.none => acc) = (s key).or acc := by
      cases s key <;> rfl
    simp only [List.foldl_cons, hstep, List.reverse_cons, List.findSome?_append,
      ih ((s key).or acc), Option.or_assoc]
    congr 1
    rcases hsk : s key with _ | v <;> simp [List.findSome?_cons, hsk]

theorem multiSourceLookupEnv_eq_findSome (ss : List Source) (key : String) :
    multiSourceLookupEnv ss key = ss.findSome? (fun s => s key) := by
  induction ss with
  | nil => rfl
  | cons s rest ih =>
    simp only [multiSourceLookupEnv, List.findSome?_cons]
    cases s key <;> simp [ih]

/-! ## Coercion errors are never the missing-required error -/

theorem setValue_error_not_notSet (ext : Ext) (t : Ty) (s : String) (e : GoErr)
    (h : setValue ext t s = .error e) : ∀ ns, e ≠ GoErr.notSet ns := by
  intro ns hne
  subst hne
  rcases t with ⟨k, isDur, um, nm⟩
  cases isDur
  · cases um
    · rcases k with bits | bits | bits | _ | _ | elem | _ | _
      · rcases hp : parseIntGo s bits with e' | n <;> simp [setValue, setInt, hp, Except.map] at h
      · rcases hp : parseUintGo s bits with e' | n <;> simp [setValue, setUint, hp, Except.map] at h
      · rcases hp : parseFloatGo s bits with e' | n <;> simp [setValue, setFloat, hp, Except.map] at h
      · rcases hp : parseBoolGo s with e' | n <;> simp [setValue, setBool, hp, Except.map] at h
      · simp [setValue, setString, Except.map] at h
      · simp [setValue] at h
      · simp [setValue] at h
      · simp [setValue] at h
    · rcases hu : ext.unmarshalText nm s with m | v <;>
        simp [setValue, setUnmarshaler, hu, Except.map] at h
  · cases um <;>
      (rcases hd : ext.parseDuration s with m | d <;>
        simp [setValue, setDuration, hd, Except.map] at h)

theorem setSlice_error_not_notSet (ext : Ext) (elem : Ty) :
    ∀ (ps : List String) (e : GoErr), setSlice ext elem ps = .error e →
      ∀ ns, e ≠ GoErr.notSet ns := by
  intro ps
  induction ps with
  | nil =>
    intro e h
    simp [setSlice] at h
  | cons p ps ih =>
    intro e h ns hne
    unfold setSlice at h
    rcases hv : setValue ext elem p with e' | v
    · rw [hv] at h
      injection h with h
      exact setValue_error_not_notSet ext elem p e' hv ns (h.trans hne)
    · rw [hv] at h
      rcases hs : setSlice ext elem ps with e2 | vs
      · rw [hs] at h
        injection h with h
        exact ih e2 hs ns (h.trans hne)
      · rw [hs] at h
        cases h

theorem coerceStore_error_not_notSet (ext : Ext) (sliceSep : String) (t : Ty)
    (raw : String) (e : GoErr)
    (h : coerceStore ext sliceSep t raw = .error e) :
    ∀ ns, e ≠ GoErr.notSet ns := by
  unfold coerceStore at h
  rcases hse : sliceElem? t with _ | elem
  · rw [hse] at h
    exact setValue_error_not_notSet ext t raw e h
  · rw [hse] at h
    rcases hum : t.um with _ | _
    · rw [hum] at h
      rcases hs : setSlice ext elem (stringsSplit raw sliceSep) with e2 | vs
      · have h2 : Except.map Val.sliceV (Except.error e2) = Except.error e := by
          rw [← hs]
          exact h
        simp [Except.map] at h2
        exact fun ns hne => setSlice_error_not_notSet ext elem _ e2 hs ns (h2 ▸ hne)
      · have h2 : Except.map Val.sliceV (Except.ok vs) = Except.error e := by
          rw [← hs]
          exact h
        simp [Except.map] at h2
    · rw [hum] at h
      have h2 : setValue ext t raw = Except.error e := h
      exact setValue_error_not_notSet ext t raw e h2

/-- The element of a `pre ++ x :: suf` decomposition, at index
`pre.length`, also after mapping over the list. -/
theorem getElem?_append_cons {α : Type} (l1 l2 : List α) (x : α) :
    (l1 ++ x :: l2)[l1.length]? = some x := by
  rw [List.getElem?_append_right (Nat.le_refl _)]
  simp

/-! ## Range soundness of the numeric parsers -/

theorem parseUintGo_ok_range {s : String} {bits : Nat} {u : Nat}
    (h : parseUintGo s bits = .ok u) : u < 2 ^ bits := by
  unfold parseUintGo at h
  dsimp only at h
  split_ifs at h with h1 h2 h3
  all_goals first
    | exact Except.noConfusion h
    | (injection h with h
       subst h
       have hpos : 0 < 2 ^ bits := by positivity
       omega)

theorem intFromDigits_ok_range {neg : Bool} {digits : List Char} {bits : Nat}
    {n : Int} (h : intFromDigits neg digits bits = .ok n) :
    -(2 ^ (bits - 1) : Int) ≤ n ∧ n < 2 ^ (bits - 1) := by
  have hcast : ((2 ^ (bits - 1) : Nat) : Int) = (2 : Int) ^ (bits - 1) := by
    push_cast
    ring
  have hd0 : (0 : Int) ≤ (digitsVal digits : Int) := Int.natCast_nonneg _
  have hp : (0 : Int) < (2 : Int) ^ (bits - 1) := by positivity
  cases neg
  · unfold intFromDigits at h
    simp only [Bool.not_false, Bool.true_and, Bool.false_and, Bool.false_eq_true,
      if_false, decide_eq_true_eq] at h
    split_ifs at h with h1 h2 h3
    all_goals first
      | exact Except.noConfusion h
      | (injection h with h
         subst h
         push_neg at h3
         have hz : ((digitsVal digits : Nat) : Int) < ((2 ^ (bits - 1) : Nat) : Int) := by
           exact_mod_cast h3
         rw [hcast] at hz
         exact ⟨by linarith, hz⟩)
  · unfold intFromDigits at h
    simp only [Bool.not_true, Bool.true_and, Bool.false_and, Bool.false_eq_true,
      if_false, if_true, decide_eq_true_eq] at h
    split_ifs at h with h1 h2 h3
    all_goals first
      | exact Except.noConfusion h
      | (injection h with h
         subst h
         push_neg at h3
         have hz : ((digitsVal digits : Nat) : Int) ≤ ((2 ^ (bits - 1) : Nat) : Int) := by
           exact_mod_cast h3
         rw [hcast] at hz
         exact ⟨by linarith, by linarith⟩)

theorem parseIntGo_ok_range {s : String} {bits : Nat} {n : Int}
    (h : parseIntGo s bits = .ok n) :
    -(2 ^ (bits - 1) : Int) ≤ n ∧ n < 2 ^ (bits - 1) := by
  unfold parseIntGo at h
  rcases hsd : s.data with _ | ⟨c, rest⟩ <;> rw [hsd] at h
  · exact Except.noConfusion h
  · exact intFromDigits_ok_range h

theorem floatRange_ok {bits : Nat} {q q' : Rat}
    (h : floatRange bits q = .ok q') :
    |q'| < floatOverflow bits ∧ (q' = 0 ∨ floatUnderflow bits < |q'|) := by
  have hover : 0 < floatOverflow bits := by
    unfold floatOverflow
    split <;> decide
  have habs : (if q < 0 then -q else q) = |q| := by
    split_ifs with hq
    · exact (abs_of_neg hq).symm
    · exact (abs_of_nonneg (le_of_not_lt hq)).symm
  unfold floatRange at h
  dsimp only at h
  rw [habs] at h
  split_ifs at h with h1 h2 h3
  · injection h with h
    subst h
    simp [hover]
  · injection h with h
    subst h
    push_neg at h2 h3
    exact ⟨h2, Or.inr h3⟩

theorem parseFloatGo_ok_range {s : String} {bits : Nat} {q : Rat}
    (h : parseFloatGo s bits = .ok q) :
    |q| < floatOverflow bits ∧ (q = 0 ∨ floatUnderflow bits < |q|) := by
  unfold parseFloatGo at h
  rcases hsd : s.data with _ | ⟨c, rest⟩ <;> rw [hsd] at h
  · exact Except.noConfusion h
  · dsimp only at h
    iterate 12
      all_goals first
        | exact Except.noConfusion h
        | exact floatRange_ok h
        | split at h

/-! ## Token replacement by `os.Expand` -/

theorem expandChars_cons_ne (m : String → String) {c : Char} (cs : List Char)
    (hc : c ≠ '$') : expandChars m (c :: cs) = c :: expandChars m cs := by
  rw [expandChars, if_neg hc]

theorem expandChars_append_no_dollar (m : String → String) (pre suf : List Char)
    (h : '$' ∉ pre) :
    expandChars m (pre ++ suf) = pre ++ expandChars m suf := by
  induction pre with
  | nil => simp
  | cons c pre' ih =>
    have hc : c ≠ '$' := fun hcc => h (hcc ▸ List.mem_cons_self _ _)
    have h' : '$' ∉ pre' := fun hin => h (List.mem_cons_of_mem _ hin)
    rw [List.cons_append, expandChars_cons_ne m _ hc, ih h', List.cons_append]

theorem String.mk_ne_empty {cs : List Char} (h : cs ≠ []) : String.mk cs ≠ "" := by
  intro he
  exact h (congrArg String.data he)

theorem findIdx_first_brace (nm suf : List Char) (h : '}' ∉ nm) :
    List.findIdx? (fun c => c == '}') (nm ++ '}' :: suf) = some nm.length := by
  induction nm with
  | nil => simp [List.findIdx?_cons]
  | cons a nm' ih =>
    have ha : (a == '}') = false := by
      simp only [beq_eq_false_iff_ne, ne_eq]
      intro hcc
      exact h (hcc ▸ List.mem_cons_self _ _)
    have h' : '}' ∉ nm' := fun hin => h (List.mem_cons_of_mem _ hin)
    simp [List.findIdx?_cons, ha, ih h']

theorem braceScan_token (nm suf : List Char) (hnm : nm ≠ []) (hbr : '}' ∉ nm) :
    braceScan (nm ++ '}' :: suf) = (String.mk nm, nm.length + 2) := by
  unfold braceScan
  rw [findIdx_first_brace nm suf hbr]
  have hlen : nm.length ≠ 0 := by
    simpa [List.length_eq_zero] using hnm
  rcases h : nm.length with _ | k
  · exact absurd h hlen
  · simp only [h]
    rw [← h, List.take_left]

theorem getShellName_braced (nm suf : List Char) (hnm : nm ≠ [])
    (hbr : '}' ∉ nm) :
    getShellName ('{' :: (nm ++ '}' :: suf)) = (String.mk nm, nm.length + 2) := by
  rw [getShellName, if_pos rfl]
  rcases nm with _ | ⟨a, nm'⟩
  · exact absurd rfl hnm
  · rcases nm' with _ | ⟨b, nm''⟩
    · simp only [List.cons_append, List.nil_append, getShellNameBrace]
      by_cases hsp : isShellSpecialVar a
      · simp [hsp]
      · simp only [hsp, Bool.false_and, Bool.false_eq_true, if_false]
        have := braceScan_token [a] suf (by simp) hbr
        simpa using this
    · simp only [List.cons_append, getShellNameBrace]
      have hb : (b == '}') = false := by
        simp only [beq_eq_false_iff_ne, ne_eq]
        intro hcc
        exact hbr (hcc ▸ List.mem_cons_of_mem _ (List.mem_cons_self _ _))
      simp only [hb, Bool.and_false, Bool.false_eq_true, if_false]
      have := braceScan_token (a :: b :: nm'') suf (by simp) hbr
      simpa using this

/-- Each `${NAME}` token (name non-empty, no closing brace inside) is
replaced by `mapping NAME`, and expansion continues after the token. -/
theorem expandChars_braced_token (m : String → String) (nm suf : List Char)
    (hnm : nm ≠ []) (hbr : '}' ∉ nm) :
    expandChars m ('$' :: '{' :: (nm ++ '}' :: suf)) =
      (m (String.mk nm)).data ++ expandChars m suf := by
  rw [expandChars, if_pos rfl]
  rw [getShellName_braced nm suf hnm hbr]
  have hne : String.mk nm ≠ "" := String.mk_ne_empty hnm
  have hdrop : ('{' :: (nm ++ '}' :: suf)).drop (nm.length + 2) = suf := by
    have heq : '{' :: (nm ++ '}' :: suf) = (('{' :: nm) ++ ['}']) ++ suf := by
      simp
    rw [heq]
    have hlen : (('{' :: nm) ++ ['}']).length = nm.length + 2 := by
      simp
    rw [← hlen, List.drop_left]
  simp only [hne, false_and, if_false, hdrop]

theorem getShellName_alnum (a : Char) (nm' suf : List Char)
    (halpha : ∀ c ∈ a :: nm', isAlphaNum c = true)
    (hsp : isShellSpecialVar a = false)
    (hsuf : ∀ c ∈ suf.head?, isAlphaNum c = false) :
    getShellName ((a :: nm') ++ suf) = (String.mk (a :: nm'), nm'.length + 1) := by
  have ha : a ≠ '{' := by
    intro hcc
    have h0 := halpha a (List.mem_cons_self _ _)
    rw [hcc] at h0
    simp [isAlphaNum, Char.isDigit, Char.isAlpha, Char.isUpper, Char.isLower] at h0
  rw [List.cons_append, getShellName, if_neg ha, if_neg (by simp [hsp])]
  have htw : (a :: (nm' ++ suf)).takeWhile isAlphaNum = a :: nm' := by
    have h1 : ((a :: nm') ++ suf).takeWhile isAlphaNum =
        (a :: nm') ++ suf.takeWhile isAlphaNum :=
      List.takeWhile_append_of_pos halpha
    rw [List.cons_append] at h1
    rw [h1]
    rcases hs : suf with _ | ⟨c, suf2⟩
    · simp
    · have hcn : isAlphaNum c = false := hsuf c (by simp [hs])
      simp [List.takeWhile_cons, hcn]
  simp only [htw]
  simp

/-- Each unbraced `$NAME` token (alphanumeric name whose first character
is not a digit, followed by a non-alphanumeric character or the end of
the string) is replaced by `mapping NAME`, and expansion continues after
the token. -/
theorem expandChars_name_token (m : String → String) (a : Char)
    (nm' suf : List Char)
    (halpha : ∀ c ∈ a :: nm', isAlphaNum c = true)
    (hsp : isShellSpecialVar a = false)
    (hsuf : ∀ c ∈ suf.head?, isAlphaNum c = false) :
    expandChars m ('$' :: ((a :: nm') ++ suf)) =
      (m (String.mk (a :: nm'))).data ++ expandChars m suf := by
  rw [expandChars, if_pos rfl]
  rw [getShellName_alnum a nm' suf halpha hsp hsuf]
  have hne : String.mk (a :: nm') ≠ "" := String.mk_ne_empty (by simp)
  have hdrop : ((a :: nm') ++ suf).drop (nm'.length + 1) = suf := by
    have hlen : (a :: nm').length = nm'.length + 1 := by simp
    rw [← hlen, List.drop_left]
  simp only [hne, false_and, if_false, hdrop]

/-! ## Auxiliary facts used by the claim theorems -/

theorem coerceStore_slice (ext : Ext) (sliceSep : String) {t elem : Ty}
    (helem : sliceElem? t = some elem) (hum : t.um = false) (value : String) :
    coerceStore ext sliceSep t value =
      (setSlice ext elem (stringsSplit value sliceSep)).map Val.sliceV := by
  unfold coerceStore
  rw [helem]
  show (if t.um = true then setValue ext t value
        else (setSlice ext elem (stringsSplit value sliceSep)).map Val.sliceV) =
    (setSlice ext elem (stringsSplit value sliceSep)).map Val.sliceV
  rw [hum]
  simp

theorem setSlice_first_err (ext : Ext) (t : Ty) (ps1 : List String) (p : String)
    (ps2 : List String) (e : GoErr)
    (hok : ∀ x ∈ ps1, ∃ w, setValue ext t x = .ok w)
    (he : setValue ext t p = .error e) :
    setSlice ext t (ps1 ++ p :: ps2) = .error e := by
  induction ps1 with
  | nil =>
    simp [setSlice, he]
  | cons x xs ih =>
    obtain ⟨w, hw⟩ := hok x (List.mem_cons_self _ _)
    have hih := ih (fun y hy => hok y (List.mem_cons_of_mem _ hy))
    simp [setSlice, hw, hih]

/-- Decidable equality of `Except` results, used to evaluate the parsers
on concrete inputs. -/
instance exceptDecEq {e a : Type} [DecidableEq e] [DecidableEq a] :
    DecidableEq (Except e a)
  | .error x, .error y =>
    if h : x = y then .isTrue (by rw [h])
    else .isFalse (by intro hh; cases hh; exact h rfl)
  | .error _, .ok _ => .isFalse (by intro hh; cases hh)
  | .ok _, .error _ => .isFalse (by intro hh; cases hh)
  | .ok x, .ok y =>
    if h : x = y then .isTrue (by rw [h])
    else .isFalse (by intro hh; cases hh; exact h rfl)

/-! ## Concrete fixtures for witnesses and examples -/

/-- The Go type `int` (64-bit signed). -/
def intTy : Ty := .mk (.intK 64) false false "int"

/-- The Go type `string`. -/
def stringTy : Ty := .mk .stringK false false "string"

/-- The Go type `[]int`. -/
def intSliceTy : Ty := .mk (.sliceK intTy) false false "[]int"

/-- `struct { B struct { Bar int `env:"BAR"` } }` — a nested struct field
with no `env` tag of its own. -/
def barFields : List Field :=
  [Field.nested Tags.none true [Field.scalar (Tags.envTag "BAR") true intTy (Val.intV 0)]]

/-- `struct { DB struct { Port int `env:"PORT"` } `env:"DB"` }`. -/
def dbFields : List Field :=
  [Field.nested (Tags.envTag "DB") true
    [Field.scalar (Tags.envTag "PORT") true intTy (Val.intV 0)]]

/-- `struct { Addr string `env:"ADDR,expand"` }`. -/
def addrFields : List Field :=
  [Field.scalar { env := some "ADDR,expand", dflt := Option.none, usage := "" }
    true stringTy (Val.stringV "")]

/-- The source `{PORT: "8080", ADDR: "localhost:${PORT}"}`. -/
def srcAddr : Source := mapSource [("PORT", "8080"), ("ADDR", "localhost:${PORT}")]

/-- The interpolation mapping over `srcAddr` (missing keys become `""`). -/
def mapAddr : String → String := fun k => (srcAddr k).getD ""

/-- A required variable `REQ` (absent from `srcBad`). -/
def vReq : Var :=
  { name := "REQ", ty := intTy, usage := "", dflt := "", required := true,
    expand := false, fieldVal := Val.intV 1, hasDefaultTag := false }

/-- An int variable `BAD` bound to the unparsable value `"xx"`. -/
def vBad : Var :=
  { name := "BAD", ty := intTy, usage := "", dflt := "", required := false,
    expand := false, fieldVal := Val.intV 2, hasDefaultTag := false }

/-- An int variable `NEXT` bound to `"9"`. -/
def vNext : Var :=
  { name := "NEXT", ty := intTy, usage := "", dflt := "", required := false,
    expand := false, fieldVal := Val.intV 3, hasDefaultTag := false }

/-- A slice variable `PORTS` bound to `"1 x 3"` (second element bad). -/
def vPorts : Var :=
  { name := "PORTS", ty := intSliceTy, usage := "", dflt := "", required := false,
    expand := false, fieldVal := Val.sliceV [Val.intV 1], hasDefaultTag := false }

/-- A slice variable `GOOD` bound to `"1 2"`. -/
def vGood : Var :=
  { name := "GOOD", ty := intSliceTy, usage := "", dflt := "", required := false,
    expand := false, fieldVal := Val.sliceV [], hasDefaultTag := false }

/-- The source for the loop fixtures. -/
def srcBad : Source :=
  mapSource [("BAD", "xx"), ("NEXT", "9"), ("PORTS", "1 x 3"), ("GOOD", "1 2")]

/-! ## Claim theorems -/

/-- **C1** (counterexample).  The claim states that for an invalid argument
the load operation returns an invalid-argument error and never panics.  At
the concrete argument `nil`, the `Load` variant of `env.go` lines 473-477
panics with `env: cfg must be a non-nil struct pointer` instead of
returning an error, so the claim as stated is false on that code. -/
theorem load_nil_panics_cex :
    load extNone (mapSource []) Arg.nilArg Option.none =
      LoadOut.panicked "env: cfg must be a non-nil struct pointer" := rfl

/-- **C1** (amended).  For every argument that is nil, a non-pointer, a
pointer to a non-struct, or a nil struct pointer, the argument check runs
first — before options are read, before any field traversal, for every
loader configuration: the `loadVars` variant returns `ErrInvalidArgument`
(and never panics), while the `Load` variants panic with the fixed message
`env: cfg must be a non-nil struct pointer`. -/
theorem invalid_argument_checked_first (ext : Ext) (osEnv : Source)
    (l : LoaderJ) (arg : Arg) (opts : Option Options)
    (h : structPtr arg = false) :
    loadVarsJ ext l arg = ([], some GoErr.invalidArgument) ∧
    load ext osEnv arg opts =
      LoadOut.panicked "env: cfg must be a non-nil struct pointer" := by
  cases arg
  case structPointer fields => simp [structPtr] at h
  all_goals exact ⟨rfl, rfl⟩

/-- **C1** witness. -/
theorem invalid_argument_checked_first_witness :
    structPtr Arg.nilArg = false ∧
    (loadVarsJ extNone ⟨mapSource [], "", " "⟩ Arg.nilArg =
        ([], some GoErr.invalidArgument) ∧
      load extNone (mapSource []) Arg.nilArg Option.none =
        LoadOut.panicked "env: cfg must be a non-nil struct pointer") :=
  ⟨rfl, invalid_argument_checked_first extNone (mapSource [])
    ⟨mapSource [], "", " "⟩ Arg.nilArg Option.none rfl⟩

/-- **C2**.  When the variables split as `pre ++ v :: suf` with every
variable of `pre` coercing without failure and `v`'s coercion failing with
`e`, the loop returns exactly `e` — which is never a `NotSetError`, so no
merging with the accumulated missing-required names can occur (they are
discarded).  And when no variable's coercion fails, the result is the
`NotSetError` carrying the effective names of ALL required-and-absent
variables (`missingFrom` filters the whole list), or success when there
are none. -/
theorem coercion_error_priority (ext : Ext) (src : Source) (sliceSep : String)
    (pre suf vars : List Var) (v : Var) (e : GoErr)
    (hpre : ∀ u ∈ pre, stepErr ext src sliceSep u = Option.none)
    (hv : stepErr ext src sliceSep v = some e)
    (hok : ∀ u ∈ vars, stepErr ext src sliceSep u = Option.none) :
    (loadLoop ext src sliceSep (pre ++ v :: suf) []).2 = some e ∧
    (∀ ns, e ≠ GoErr.notSet ns) ∧
    (loadLoop ext src sliceSep vars []).2 =
      (if missingFrom src vars = [] then Option.none
       else some (GoErr.notSet (missingFrom src vars))) := by
  refine ⟨?_, ?_, ?_⟩
  · rw [loadLoop_first_err ext src sliceSep pre v suf e hpre hv []]
  · obtain ⟨raw, hres, hc⟩ := (stepErr_some_iff ext src sliceSep).mp hv
    exact coerceStore_error_not_notSet ext sliceSep v.ty raw e hc
  · rw [loadLoop_all_ok ext src sliceSep vars hok []]
    simp only [List.nil_append]
    rcases hm : missingFrom src vars with _ | ⟨a, ms⟩ <;> simp

/-- **C2** witness: `REQ` is required-and-absent, `BAD` fails int
coercion, so the loop returns the int parse error, not a `NotSetError`;
with only `REQ` and `NEXT` the loop returns `NotSetError ["REQ"]`. -/
theorem coercion_error_priority_witness :
    (loadLoop extNone srcBad " " ([vReq] ++ vBad :: [vNext]) []).2 =
      some (GoErr.parse "int" NumErr.syntaxE) ∧
    (∀ ns, GoErr.parse "int" NumErr.syntaxE ≠ GoErr.notSet ns) ∧
    (loadLoop extNone srcBad " " [vReq, vNext] []).2 =
      (if missingFrom srcBad [vReq, vNext] = [] then Option.none
       else some (GoErr.notSet (missingFrom srcBad [vReq, vNext]))) :=
  coercion_error_priority extNone srcBad " " [vReq] [vNext] [vReq, vNext]
    vBad (GoErr.parse "int" NumErr.syntaxE)
    (by
      intro u hu
      rw [List.mem_singleton] at hu
      subst hu
      rfl)
    rfl
    (by
      intro u hu
      simp only [List.mem_cons, List.mem_singleton, List.not_mem_nil, or_false] at hu
      rcases hu with rfl | rfl <;> rfl)

/-- **C3**.  For a settable leaf field carrying an `env` tag that splits
into a non-empty name and valid options, the default string is resolved
exactly as claimed: the `default` tag value when that tag is present
(winning over the pre-initialized field value, which it ignores); the `%v`
re-serialization of the field's value at call time when the tag is absent
and the field is not required; and for a required field no default is
computed at all — the combination with a `default` tag panics, and without
one the default is left as the zero string with `hasDefaultTag = false`,
so the load loop never reads it. -/
theorem default_resolution (sep : String) (tags : Tags) (ty : Ty) (val : Val)
    (tagVal name : String) (options : List String) (required expand : Bool)
    (htag : tags.env = some tagVal)
    (hsplit : stringsSplit tagVal "," = name :: options)
    (hname : name ≠ "")
    (hopts : parseOptions options false false = .ok (required, expand)) :
    parseVars sep [Field.scalar tags true ty val] =
      (if tags.dflt.isSome ∧ required = true then
        .error "env: `required` and `default` can't be used simultaneously"
      else
        .ok [{ name := name, ty := ty, usage := tags.usage,
               dflt :=
                 match tags.dflt with
                 | some d => d
                 | Option.none => if required then "" else sprintfV val,
               required := required, expand := expand, fieldVal := val,
               hasDefaultTag := tags.dflt.isSome }]) := by
  rcases hd : tags.dflt with _ | d <;> rcases hr : required with _ | _ <;>
    simp [parseVars, parseLeaf, htag, hsplit, hname, hopts, hd, hr]

/-- **C3** witness: with a `default` tag `"9"` and a pre-initialized value
`7`, the resolved default is `"9"` — the annotation wins. -/
theorem default_resolution_witness :
    parseVars "_"
        [Field.scalar { env := some "PORT", dflt := some "9", usage := "u" }
          true intTy (Val.intV 7)] =
      .ok [{ name := "PORT", ty := intTy, usage := "u", dflt := "9",
             required := false, expand := false, fieldVal := Val.intV 7,
             hasDefaultTag := true }] := by
  have h := default_resolution "_"
    { env := some "PORT", dflt := some "9", usage := "u" } intTy (Val.intV 7)
    "PORT" "PORT" [] false false rfl rfl (by decide) rfl
  simpa using h

/-- **C4**.  Evaluation of the two `parseVars` variants at the input where
they diverge, and of the claim's own example.  A nested struct field with
no `env` tag, child leaf `BAR`, and name separator `_`: the later variant
(`env.go` lines 541-550) leaves the descendant's name `BAR` unchanged, as
the claim states, but the earlier variant (`env.go` lines 123-137) still
prepends the separator, producing `_BAR`, which contradicts the claim (and
the repository's own test asserting that an untagged nested struct's child
keeps its name).  The claim's positive example holds on the later variant:
with prefix `DB`, separator `_`, child `PORT` and source
`{DB_PORT: "5432"}`, the child resolves to `5432`. -/
theorem nested_prefix_divergence :
    (parseVarsJoin "_" barFields).map (List.map Var.name) = .ok ["_BAR"] ∧
    (parseVars "_" barFields).map (List.map Var.name) = .ok ["BAR"] ∧
    load extNone (fun _ => Option.none) (Arg.structPointer dbFields)
        (some { source := some (mapSource [("DB_PORT", "5432")]),
                sliceSep := "", nameSep := "_" }) =
      LoadOut.result
        [{ name := "DB_PORT", ty := intTy, usage := "", dflt := "0",
           required := false, expand := false, fieldVal := Val.intV 5432,
           hasDefaultTag := false }] Option.none := by
  refine ⟨?_, ?_, ?_⟩
  · simp +decide [barFields, parseVarsJoin, parseLeaf, Tags.envTag, Tags.none,
      parseOptions, stringsSplit, splitSepAux, sprintfV, Except.map]
  · simp +decide [barFields, parseVars, parseLeaf, Tags.envTag, Tags.none,
      parseOptions, stringsSplit, splitSepAux, sprintfV, Except.map]
  · simp +decide [load, dbFields, parseVars, parseLeaf, Tags.envTag,
      parseOptions, stringsSplit, splitSepAux, setDefaultOptions, loadLoop,
      lookupEnv, mapSource, coerceStore, sliceElem?, setValue, setInt,
      parseIntGo, intFromDigits, intTy, sprintfV, digitsVal, Except.map]

/-- **C5**.  A required variable `v` absent from the source keeps its
pre-call field value (position `pre.length` of the final field states
still holds `v` itself — its coercion is skipped entirely), and when the
traversal completes with no coercion failure, the returned missing-set is
the aggregate of all required-and-absent names and contains exactly `v`'s
effective name for this leaf. -/
theorem required_missing_skips_field (ext : Ext) (src : Source)
    (sliceSep : String) (pre suf : List Var) (v : Var)
    (hreq : v.required = true)
    (habs : lookupEnv src v.name v.expand = Option.none)
    (hok : ∀ u ∈ pre ++ v :: suf, stepErr ext src sliceSep u = Option.none) :
    ((loadLoop ext src sliceSep (pre ++ v :: suf) []).1)[pre.length]? = some v ∧
    v.name ∈ missingFrom src (pre ++ v :: suf) ∧
    (loadLoop ext src sliceSep (pre ++ v :: suf) []).2 =
      some (GoErr.notSet (missingFrom src (pre ++ v :: suf))) := by
  have hmem : v.name ∈ missingFrom src (pre ++ v :: suf) := by
    refine List.mem_map.mpr ⟨v, ?_, rfl⟩
    refine List.mem_filter.mpr ⟨by simp, ?_⟩
    simp [hreq, habs]
  refine ⟨loadLoop_skip_get ext src sliceSep pre v suf hreq habs [], hmem, ?_⟩
  rw [loadLoop_all_ok ext src sliceSep _ hok []]
  simp only [List.nil_append]
  rcases hm : missingFrom src (pre ++ v :: suf) with _ | ⟨a, ms⟩
  · rw [hm] at hmem
    cases hmem
  · simp [hm]

/-- **C5** witness: `REQ` required and absent, beside the coercible
`NEXT`. -/
theorem required_missing_skips_field_witness :
    ((loadLoop extNone srcBad " " ([vNext] ++ vReq :: []) []).1)[[vNext].length]? =
      some vReq ∧
    vReq.name ∈ missingFrom srcBad ([vNext] ++ vReq :: []) ∧
    (loadLoop extNone srcBad " " ([vNext] ++ vReq :: []) []).2 =
      some (GoErr.notSet (missingFrom srcBad ([vNext] ++ vReq :: []))) :=
  required_missing_skips_field extNone srcBad " " [vNext] [] vReq rfl rfl
    (by
      intro u hu
      simp only [List.singleton_append, List.mem_cons, List.not_mem_nil,
        or_false] at hu
      rcases hu with rfl | rfl <;> rfl)

/-- **C6**.  With the `expand` flag, a found value is interpolated against
the SAME source, a missing interpolation target becoming the empty string
(first conjunct: `lookupEnv` re-queries `src` itself, with `getD ""`).
Each `${NAME}` and each `$NAME` token is replaced by the result of that
query (second and third conjuncts).  In particular, with source
`{PORT: "8080", ADDR: "localhost:${PORT}"}`, a field bound to
`ADDR,expand` resolves to `"localhost:8080"` (fourth conjunct, through
the full `load` pipeline). -/
theorem expand_interpolation :
    (∀ (src : Source) (key : String),
      lookupEnv src key true =
        (src key).map (fun value => osExpand value (fun k => (src k).getD ""))) ∧
    (∀ (m : String → String) (pre nm suf : List Char),
      '$' ∉ pre → '}' ∉ nm → nm ≠ [] →
      expandChars m (pre ++ '$' :: '{' :: (nm ++ '}' :: suf)) =
        pre ++ ((m (String.mk nm)).data ++ expandChars m suf)) ∧
    (∀ (m : String → String) (a : Char) (nm' suf : List Char),
      (∀ c ∈ a :: nm', isAlphaNum c = true) →
      isShellSpecialVar a = false →
      (∀ c ∈ suf.head?, isAlphaNum c = false) →
      expandChars m ('$' :: ((a :: nm') ++ suf)) =
        (m (String.mk (a :: nm'))).data ++ expandChars m suf) ∧
    load extNone (fun _ => Option.none) (Arg.structPointer addrFields)
        (some { source := some srcAddr, sliceSep := "", nameSep := "" }) =
      LoadOut.result
        [{ name := "ADDR", ty := stringTy, usage := "", dflt := "",
           required := false, expand := true,
           fieldVal := Val.stringV "localhost:8080",
           hasDefaultTag := false }] Option.none := by
  refine ⟨?_, ?_, ?_, ?_⟩
  · intro src key
    unfold lookupEnv
    cases hk : src key <;> simp [hk]
  · intro m pre nm suf hpre hbr hnm
    rw [expandChars_append_no_dollar m pre _ hpre,
      expandChars_braced_token m nm suf hnm hbr]
  · intro m a nm' suf halpha hsp hsuf
    exact expandChars_name_token m a nm' suf halpha hsp hsuf
  · simp +decide [load, addrFields, srcAddr, parseVars, parseLeaf,
      parseOptions, stringsSplit, splitSepAux, setDefaultOptions, loadLoop,
      lookupEnv, mapSource, coerceStore, sliceElem?, setValue, setString,
      stringTy, sprintfV, osExpand, expandChars, getShellName,
      getShellNameBrace, braceScan, isShellSpecialVar, isAlphaNum, Except.map]

/-- **C6** witness: the braced-token conjunct applied at
`"localhost:" ++ "${PORT}"` over the mapping of `srcAddr`. -/
theorem expand_interpolation_witness :
    expandChars mapAddr
        ("localhost:".data ++ '$' :: '{' :: ("PORT".data ++ '}' :: [])) =
      "localhost:".data ++
        ((mapAddr (String.mk "PORT".data)).data ++ expandChars mapAddr []) :=
  expand_interpolation.2.1 mapAddr "localhost:".data "PORT".data []
    (by decide) (by decide) (by decide)

/-- **C7**.  `setValue` dispatches on the target's type with first match
winning, in the source order: the exact `time.Duration` type first (even
for a type that also implements `encoding.TextUnmarshaler`); then any type
implementing `encoding.TextUnmarshaler`, whatever its underlying kind —
this is the sole extensibility hook, so an integer-kinded user type with
the method is delegated entirely to it; then the signed integer, unsigned
integer, floating-point and boolean kinds; a string target is assigned
the raw value verbatim and always succeeds; and a target matching none of
these rules (slice, struct or other kind without the method) yields the
unsupported-type failure naming the offending type. -/
theorem setValue_dispatch_order (ext : Ext) (s nm : String) :
    (∀ (k : TKind) (um : Bool),
      setValue ext (Ty.mk k true um nm) s = (setDuration ext s).map Val.intV) ∧
    (∀ k : TKind,
      setValue ext (Ty.mk k false true nm) s = setUnmarshaler ext nm s) ∧
    (∀ bits : Nat,
      setValue ext (Ty.mk (.intK bits) false false nm) s =
        (setInt bits s).map Val.intV) ∧
    (∀ bits : Nat,
      setValue ext (Ty.mk (.uintK bits) false false nm) s =
        (setUint bits s).map Val.uintV) ∧
    (∀ bits : Nat,
      setValue ext (Ty.mk (.floatK bits) false false nm) s =
        (setFloat bits s).map Val.floatV) ∧
    setValue ext (Ty.mk .boolK false false nm) s = (setBool s).map Val.boolV ∧
    setValue ext (Ty.mk .stringK false false nm) s = .ok (Val.stringV s) ∧
    (∀ elem : Ty,
      setValue ext (Ty.mk (.sliceK elem) false false nm) s =
        .error (GoErr.unsupportedType nm)) ∧
    setValue ext (Ty.mk .structK false false nm) s =
      .error (GoErr.unsupportedType nm) ∧
    setValue ext (Ty.mk .otherK false false nm) s =
      .error (GoErr.unsupportedType nm) :=
  ⟨fun _ _ => rfl, fun _ => rfl, fun _ => rfl, fun _ => rfl, fun _ => rfl,
    rfl, rfl, fun _ => rfl, rfl, rfl⟩

/-- **C8**.  Numeric coercion respects the field's declared bit width:
whenever the signed parser succeeds, the value lies in
`[-2^(bits-1), 2^(bits-1))`; whenever the unsigned parser succeeds, the
value lies below `2^bits`; whenever the float parser succeeds, the value
is zero or lies strictly between the width's underflow and overflow
bounds — so a syntactically valid value outside the width's range is a
parse failure, never a silent truncation or wrap (concretely, `200` for
an 8-bit signed field is a range error).  The width used is exactly the
field type's: `setValue` passes the field's `bits` to the parsers. -/
theorem numeric_width_respected (s₁ s₂ s₃ : String) (b₁ b₂ b₃ : Nat)
    (n : Int) (u : Nat) (q : Rat)
    (hi : parseIntGo s₁ b₁ = .ok n)
    (hu : parseUintGo s₂ b₂ = .ok u)
    (hf : parseFloatGo s₃ b₃ = .ok q) :
    (-(2 ^ (b₁ - 1) : Int) ≤ n ∧ n < 2 ^ (b₁ - 1)) ∧
    u < 2 ^ b₂ ∧
    (|q| < floatOverflow b₃ ∧ (q = 0 ∨ floatUnderflow b₃ < |q|)) ∧
    setInt 8 "200" = .error (GoErr.parse "int" NumErr.rangeE) ∧
    (∀ (ext : Ext) (bits : Nat) (nm s : String),
      setValue ext (Ty.mk (.intK bits) false false nm) s =
          (setInt bits s).map Val.intV ∧
        setValue ext (Ty.mk (.uintK bits) false false nm) s =
          (setUint bits s).map Val.uintV ∧
        setValue ext (Ty.mk (.floatK bits) false false nm) s =
          (setFloat bits s).map Val.floatV) :=
  ⟨parseIntGo_ok_range hi, parseUintGo_ok_range hu, parseFloatGo_ok_range hf,
    rfl, fun _ _ _ _ => ⟨rfl, rfl, rfl⟩⟩

/-- **C8** witness: instantiated at `-128` for 8 signed bits, `255` for 8
unsigned bits, and `0.25` for 64 float bits. -/
theorem numeric_width_respected_witness :
    ((-(2 ^ (8 - 1) : Int) ≤ -128 ∧ (-128 : Int) < 2 ^ (8 - 1)) ∧
      (255 : Nat) < 2 ^ 8 ∧
      (|Rat.divInt 1 4| < floatOverflow 64 ∧
        (Rat.divInt 1 4 = 0 ∨ floatUnderflow 64 < |Rat.divInt 1 4|)) ∧
      setInt 8 "200" = .error (GoErr.parse "int" NumErr.rangeE) ∧
      (∀ (ext : Ext) (bits : Nat) (nm s : String),
        setValue ext (Ty.mk (.intK bits) false false nm) s =
            (setInt bits s).map Val.intV ∧
          setValue ext (Ty.mk (.uintK bits) false false nm) s =
            (setUint bits s).map Val.uintV ∧
          setValue ext (Ty.mk (.floatK bits) false false nm) s =
            (setFloat bits s).map Val.floatV)) :=
  numeric_width_respected "-128" "255" "0.25" 8 8 64 (-128) 255 (Rat.divInt 1 4)
    (by decide) (by decide) (by decide)

/-- **C9**.  Both composite sources resolve every key lookup with
deterministic last-registered-wins precedence: the `MultiSource`
combinator of `source.go` (which scans all sources, keeping the last
hit), and the `WithSource` composition of `options.go` (which reverses
the trailing sources and appends the head so that the first-found
`multiSource` scan yields the same policy).  Both equal the
specification's precedence function `lastRegisteredWins`; determinism
across repeated queries is inherent, the lookups being pure functions of
the source list and key. -/
theorem composite_source_precedence :
    (∀ (ss : List Source) (key : String),
      sourcesLookupEnv ss key = lastRegisteredWins ss key) ∧
    (∀ (src : Source) (srcs : List Source) (key : String),
      multiSourceLookupEnv (withSourceList src srcs) key =
        lastRegisteredWins (src :: srcs) key) := by
  constructor
  · intro ss key
    unfold sourcesLookupEnv lastRegisteredWins
    rw [sourcesFold_eq]
    exact Option.or_none
  · intro src srcs key
    rw [multiSourceLookupEnv_eq_findSome]
    unfold withSourceList lastRegisteredWins
    rw [List.reverse_cons]

/-- **C10**.  Slice coercion is atomic with respect to the target field.
In `setSlice` (`reflect.go` lines 146-155) the first failing element's
error is returned and no slice is built, so at the loop level: for a
slice-typed variable `v` (not a `TextUnmarshaler`) whose resolved value
splits into pieces with a failing element `p` (everything before it
coercing fine), the load loop returns exactly that element's error and
`v`'s field keeps its pre-call slice value unchanged, while a slice
variable `w` all of whose elements coerce gets the freshly built slice
assigned. -/
theorem slice_coercion_atomic (ext : Ext) (src : Source) (sliceSep : String)
    (pre suf : List Var) (v : Var) (elem : Ty) (raw : String)
    (ps1 : List String) (p : String) (ps2 : List String) (e : GoErr)
    (helem : sliceElem? v.ty = some elem) (hum : v.ty.um = false)
    (hres : resolveValue src v = some raw)
    (hsplit : stringsSplit raw sliceSep = ps1 ++ p :: ps2)
    (hok1 : ∀ x ∈ ps1, ∃ y, setValue ext elem x = .ok y)
    (hpe : setValue ext elem p = .error e)
    (hpre : ∀ u ∈ pre, stepErr ext src sliceSep u = Option.none)
    (pre2 suf2 : List Var) (w : Var) (elem2 : Ty) (raw2 : String)
    (vals : List Val)
    (helem2 : sliceElem? w.ty = some elem2) (hum2 : w.ty.um = false)
    (hres2 : resolveValue src w = some raw2)
    (hsl2 : setSlice ext elem2 (stringsSplit raw2 sliceSep) = .ok vals)
    (hok2 : ∀ u ∈ pre2 ++ w :: suf2, stepErr ext src sliceSep u = Option.none) :
    setSlice ext elem (ps1 ++ p :: ps2) = .error e ∧
    (loadLoop ext src sliceSep (pre ++ v :: suf) []).2 = some e ∧
    ((loadLoop ext src sliceSep (pre ++ v :: suf) []).1)[pre.length]? =
      some v ∧
    ((loadLoop ext src sliceSep (pre2 ++ w :: suf2) []).1)[pre2.length]? =
      some { w with fieldVal := Val.sliceV vals } := by
  have hsl : setSlice ext elem (ps1 ++ p :: ps2) = .error e :=
    setSlice_first_err ext elem ps1 p ps2 e hok1 hpe
  have hc : coerceStore ext sliceSep v.ty raw = .error e := by
    rw [coerceStore_slice ext sliceSep helem hum, hsplit, hsl]
    rfl
  have hv : stepErr ext src sliceSep v = some e :=
    (stepErr_some_iff ext src sliceSep).mpr ⟨raw, hres, hc⟩
  have h1 := loadLoop_first_err ext src sliceSep pre v suf e hpre hv []
  refine ⟨hsl, ?_, ?_, ?_⟩
  · rw [h1]
  · rw [h1]
    have hget := getElem?_append_cons (pre.map (updateVar ext src sliceSep)) suf v
    simpa using hget
  · have hw : coerceStore ext sliceSep w.ty raw2 = .ok (Val.sliceV vals) := by
      rw [coerceStore_slice ext sliceSep helem2 hum2, hsl2]
      rfl
    rw [loadLoop_all_ok ext src sliceSep (pre2 ++ w :: suf2) hok2 []]
    show ((pre2 ++ w :: suf2).map (updateVar ext src sliceSep))[pre2.length]? =
      some { w with fieldVal := Val.sliceV vals }
    rw [List.getElem?_map, getElem?_append_cons pre2 suf2 w]
    simp [updateVar_of_ok ext src sliceSep hres2 hw]

/-- **C10** witness: with `PORTS = "1 x 3"` split on `" "`, the middle
element `"x"` fails int parsing, the loop returns that parse error and
the `PORTS` field still holds its old slice; with `GOOD = "1 2"` the
field receives the freshly built slice `[1, 2]`. -/
theorem slice_coercion_atomic_witness :
    setSlice extNone intTy (["1"] ++ "x" :: ["3"]) =
      .error (GoErr.parse "int" NumErr.syntaxE) ∧
    (loadLoop extNone srcBad " " ([] ++ vPorts :: []) []).2 =
      some (GoErr.parse "int" NumErr.syntaxE) ∧
    ((loadLoop extNone srcBad " " ([] ++ vPorts :: []) []).1)[
      List.length ([] : List Var)]? = some vPorts ∧
    ((loadLoop extNone srcBad " " ([] ++ vGood :: []) []).1)[
      List.length ([] : List Var)]? =
      some { vGood with fieldVal := Val.sliceV [Val.intV 1, Val.intV 2] } :=
  slice_coercion_atomic extNone srcBad " " [] [] vPorts intTy "1 x 3"
    ["1"] "x" ["3"] (GoErr.parse "int" NumErr.syntaxE)
    rfl rfl rfl rfl
    (by
      intro x hx
      rw [List.mem_singleton] at hx
      subst hx
      exact ⟨Val.intV 1, rfl⟩)
    rfl
    (by
      intro u hu
      exact absurd hu (List.not_mem_nil u))
    [] [] vGood intTy "1 2" [Val.intV 1, Val.intV 2]
    rfl rfl rfl rfl
    (by
      intro u hu
      simp only [List.nil_append, List.mem_singleton] at hu
      subst hu
      rfl)

end GoEnv
